import Mathlib

/-!
Verification of the charity-scraper core: the paginated ingestion state
machine, region derivation, aggregation tally, snapshot restore, and CSV
export, shallowly embedded from the TypeScript sources (the React `App`
controller and `src/api/scraper.ts`).
-/

set_option maxHeartbeats 1000000
set_option maxRecDepth 20000

namespace Scraper

/-! ## Basic string utilities (substring containment, used by `extractState`) -/

/-- True when `needle` is an initial segment of `haystack`
(character lists). -/
def startsWithL : List Char → List Char → Bool
  | [], _ => true
  | _ :: _, [] => false
  | a :: as, b :: bs => a == b && startsWithL as bs

/-- True when `needle` occurs contiguously somewhere in `haystack`;
this models JavaScript `haystack.includes(needle)`. -/
def hasSubL (needle : List Char) : List Char → Bool
  | [] => needle.isEmpty
  | b :: bs => startsWithL needle (b :: bs) || hasSubL needle bs

/-- String-level substring containment, modelling `address.includes(name)`. -/
def hasSubStr (needle haystack : String) : Bool :=
  hasSubL needle.data haystack.data

/-! ## Region derivation (`extractState` in `src/api/scraper.ts`)

The source first runs the regex `([A-Z]{2})\s+\d{5}(-\d{4})?` and returns the
captured two-letter code of the leftmost match; otherwise it scans a fixed
51-entry name-to-code table in insertion order, returning the code of the
first state name contained in the address; otherwise `"Unknown"`. -/

/-- ASCII uppercase, the character class `[A-Z]` of the source regex. -/
def isUpperAZ (c : Char) : Bool := 'A' ≤ c && c ≤ 'Z'

/-- Decimal digit, the character class `\d` of the source regex. -/
def isDigit09 (c : Char) : Bool := '0' ≤ c && c ≤ '9'

/-- JavaScript regex whitespace class `\s` (ASCII and Unicode space forms). -/
def isJsSpace (c : Char) : Bool :=
  c == ' ' || c == '\t' || c == '\n' || c == '\r' || c == '\x0b' || c == '\x0c' ||
  c == '\u00a0' || c == '\u1680' || ('\u2000' ≤ c && c ≤ '\u200a') ||
  c == '\u2028' || c == '\u2029' || c == '\u202f' || c == '\u205f' ||
  c == '\u3000' || c == '\ufeff'

/-- Five decimal digits at the head of the list (`\d{5}`; the optional
`(-\d{4})?` suffix of the source regex never affects whether the whole
pattern matches, nor the captured code, so it is not examined). -/
def fiveDigits : List Char → Bool
  | a :: b :: c :: d :: e :: _ =>
    isDigit09 a && isDigit09 b && isDigit09 c && isDigit09 d && isDigit09 e
  | _ => false

/-- After the first mandatory whitespace, skip further whitespace and then
require five digits; together with `isJsSpace` on the first character this
matches `\s+\d{5}` (whitespace and digits are disjoint, so greedy matching
and this deterministic scan agree). -/
def afterSpaces : List Char → Bool
  | [] => false
  | c :: cs => if isJsSpace c then afterSpaces cs else fiveDigits (c :: cs)

/-- Try to match `([A-Z]{2})\s+\d{5}` at the head of the list, returning the
captured two-letter code. -/
def matchCodeAt : List Char → Option String
  | a :: b :: c :: rest =>
    if isUpperAZ a && isUpperAZ b && isJsSpace c && afterSpaces rest then
      some (String.mk [a, b])
    else none
  | _ => none

/-- Leftmost-match scan of the whole list, modelling
`address.match(/([A-Z]{2})\s+\d{5}(-\d{4})?/)` returning capture group 1. -/
def zipScan : List Char → Option String
  | [] => none
  | a :: rest =>
    match matchCodeAt (a :: rest) with
    | some s => some s
    | none => zipScan rest

/-- The 51-entry name-to-code table of `extractState`, in source insertion
order (50 states plus the federal district). -/
def statesTable : List (String × String) :=
  [("Alabama", "AL"), ("Alaska", "AK"), ("Arizona", "AZ"), ("Arkansas", "AR"),
   ("California", "CA"), ("Colorado", "CO"), ("Connecticut", "CT"), ("Delaware", "DE"),
   ("Florida", "FL"), ("Georgia", "GA"), ("Hawaii", "HI"), ("Idaho", "ID"),
   ("Illinois", "IL"), ("Indiana", "IN"), ("Iowa", "IA"), ("Kansas", "KS"),
   ("Kentucky", "KY"), ("Louisiana", "LA"), ("Maine", "ME"), ("Maryland", "MD"),
   ("Massachusetts", "MA"), ("Michigan", "MI"), ("Minnesota", "MN"), ("Mississippi", "MS"),
   ("Missouri", "MO"), ("Montana", "MT"), ("Nebraska", "NE"), ("Nevada", "NV"),
   ("New Hampshire", "NH"), ("New Jersey", "NJ"), ("New Mexico", "NM"), ("New York", "NY"),
   ("North Carolina", "NC"), ("North Dakota", "ND"), ("Ohio", "OH"), ("Oklahoma", "OK"),
   ("Oregon", "OR"), ("Pennsylvania", "PA"), ("Rhode Island", "RI"), ("South Carolina", "SC"),
   ("South Dakota", "SD"), ("Tennessee", "TN"), ("Texas", "TX"), ("Utah", "UT"),
   ("Vermont", "VT"), ("Virginia", "VA"), ("Washington", "WA"), ("West Virginia", "WV"),
   ("Wisconsin", "WI"), ("Wyoming", "WY"), ("District of Columbia", "DC")]

/-- Ordered first-containment lookup over a name-to-code table, modelling the
`for (const [stateName, stateCode] of Object.entries(states))` loop with
`address.includes(stateName)`. -/
def nameScan : List (String × String) → String → Option String
  | [], _ => none
  | (name, code) :: rest, addr =>
    if hasSubStr name addr then some code else nameScan rest addr

/-- Region derivation `extractState` from `src/api/scraper.ts`: empty address yields
`"Unknown"`; otherwise the leftmost code-plus-ZIP regex match wins; otherwise
the first table name contained in the address; otherwise `"Unknown"`. -/
def extractState (address : String) : String :=
  if address = "" then "Unknown"
  else
    match zipScan address.data with
    | some code => code
    | none =>
      match nameScan statesTable address with
      | some code => code
      | none => "Unknown"

/-! ## Data model

`Charity` is the record shape of `src/api/scraper.ts`: name, address, website,
optional derived contact email, and the region code derived from the address. -/

structure Charity where
  name : String
  address : String
  website : String
  email : Option String
  state : String
deriving Repr, DecidableEq

/-- Outcome of one `fetchCharityPage(pageNumber)` call as seen by the
controller: either a page of records plus the continuation flag, or a thrown
error (network or parse failure) carrying its message. -/
inductive FetchResult where
  | success (charities : List Charity) (hasMore : Bool)
  | failure (message : String)
deriving Repr, DecidableEq

/-- The controller state: the `useState` hooks of the `App` component plus
the browser-local snapshot entry (`localStorage` key `scrapedData`).  Log
messages are modelled without their wall-clock timestamp prefix. -/
structure AppState where
  isRunning : Bool
  currentPage : Nat
  processedCount : Nat
  log : List String
  states : List (String × Nat)
  charityData : List Charity
  isExporting : Bool
  hasMorePages : Bool
  isProcessing : Bool
  sourceUrl : String
  localSaved : Option (List Charity)
deriving Repr, DecidableEq

/-- The initial hook values of the `App` component. -/
def initState : AppState :=
  { isRunning := false
    currentPage := 1
    processedCount := 0
    log := []
    states := []
    charityData := []
    isExporting := false
    hasMorePages := true
    isProcessing := false
    sourceUrl := "https://www.charitynavigator.org/search?page="
    localSaved := none }

/-! ## Aggregator (region tally)

The tally is a JavaScript object keyed by `charity.state || 'Unknown'`:
an association list in key-insertion order, where an update of an existing
key keeps its position and a fresh key is appended at the end. -/

/-- The `charity.state || 'Unknown'` normalization: the empty string is
falsy in JavaScript, so it is replaced by the sentinel. -/
def normKey (s : String) : String := if s = "" then "Unknown" else s

/-- One tally increment on an insertion-ordered object: bump the first
entry with this key, or append a fresh one. -/
def bump : List (String × Nat) → String → List (String × Nat)
  | [], k => [(k, 1)]
  | (k', n) :: rest, k =>
    if k' = k then (k', n + 1) :: rest else (k', n) :: bump rest k

/-- Fold a page of records into the tally, in arrival order
(the `charities.forEach` loop of `processNextPage`). -/
def mergeTally (t : List (String × Nat)) (cs : List Charity) : List (String × Nat) :=
  cs.foldl (fun acc c => bump acc (normKey c.state)) t

/-- The count recorded for a region key (0 when the key is absent). -/
def getCount (t : List (String × Nat)) (k : String) : Nat :=
  match t.find? (fun p => p.1 == k) with
  | some p => p.2
  | none => 0

/-! ## Ingestion controller operations (the `App` component)

Each React event-loop turn is one atomic transition.  `processNextPage` takes
the fetch outcome as an argument (the Page Source is an external
collaborator) and returns the next state together with a flag telling whether
a page fetch was actually performed (false when the entry guard returned
before fetching). -/

/-- One fetch-loop iteration, `processNextPage` of the `App` component.
Mirrors the source line by line: entry guard on `isRunning` and the 1000-item
batch limit; empty page means exhaustion; otherwise merge the page into the
tally and the record store (the `useEffect` persisting `charityData` to
`localStorage` is folded into the same transition, the new store being
nonempty), advance the cursor, clamp the processed counter at 1000; halt on
batch limit (leaving `hasMorePages` untouched) or on a false continuation
flag; a thrown fetch error logs and stops the run. -/
def processNextPage (s : AppState) (fetch : FetchResult) : AppState × Bool :=
  if s.isRunning = false ∨ 1000 ≤ s.processedCount then
    ({ s with isProcessing := false }, false)
  else
    let s1 := { s with
      isProcessing := true
      log := s.log ++ ["Processing page " ++ toString s.currentPage ++ "..."] }
    match fetch with
    | .failure msg =>
      ({ s1 with
          log := s1.log ++
            ["Error processing page " ++ toString s1.currentPage ++ ": " ++ msg]
          isRunning := false
          isProcessing := false }, true)
    | .success charities hasMore =>
      if charities = [] then
        ({ s1 with
            hasMorePages := false
            isRunning := false
            isProcessing := false
            log := s1.log ++ ["No more items found. Scraping complete."] }, true)
      else
        let newData := s1.charityData ++ charities
        let newPC := s1.processedCount + charities.length
        let s2 := { s1 with
          states := mergeTally s1.states charities
          charityData := newData
          localSaved := some newData
          currentPage := s1.currentPage + 1
          processedCount := if 1000 < newPC then 1000 else newPC
          log := s1.log ++
            ["Processed page " ++ toString s1.currentPage ++ ", found " ++
              toString charities.length ++ " new items"] }
        if 1000 ≤ newPC then
          ({ s2 with
              isRunning := false
              isProcessing := false
              log := s2.log ++
                ["Batch complete. Click \"Continue\" to process the next batch."] }, true)
        else
          let s3 := { s2 with hasMorePages := hasMore }
          if hasMore = false then
            ({ s3 with
                isRunning := false
                isProcessing := false
                log := s3.log ++ ["No more items found. Scraping complete."] }, true)
          else
            ({ s3 with isProcessing := false }, true)

/-- Start operation `startScraping`: rejected (log only) when the source is known exhausted
and the cursor has moved past page 1; otherwise log and switch to running.
The immediate `processNextPage()` call it triggers is the next loop step.
The scraper-config update it also performs only rewrites the module-level
source URL with the state value already held here. -/
def startScraping (s : AppState) : AppState :=
  if s.hasMorePages = false ∧ 1 < s.currentPage then
    { s with log := s.log ++ ["No more items to scrape. All pages have been processed."] }
  else
    { s with
        log := s.log ++ ["Using source URL: " ++ s.sourceUrl, "Starting scraper..."]
        isRunning := true }

/-- Pause operation `pauseScraping`: stop the run flag; in-flight data is untouched. -/
def pauseScraping (s : AppState) : AppState :=
  { s with
      isRunning := false
      log := s.log ++ ["Scraper paused. Click \"Continue\" to resume."] }

/-- Reset operation `resetScraper` (the confirmed branch of the `window.confirm` guard):
clear every accumulated value, restore the initial ingestion state, and
remove the `scrapedData` snapshot entry. -/
def resetScraper (s : AppState) : AppState :=
  { s with
      isRunning := false
      currentPage := 1
      processedCount := 0
      log := ["Scraper reset. Ready to start."]
      states := []
      charityData := []
      hasMorePages := true
      isProcessing := false
      localSaved := none }

/-- The mount-time `useEffect`: if a snapshot is present, seed the record
store from it and recompute the tally from the restored records (the
persisted tally is never read — only `charityData` is ever saved). -/
def restoreFromStorage (s : AppState) : AppState :=
  match s.localSaved with
  | none => s
  | some saved =>
    { s with
        charityData := saved
        states := mergeTally [] saved
        log := s.log ++ ["Loaded " ++ toString saved.length ++ " items from local storage"] }

/-- Page-source discipline: every record handed to the controller carries a
nonempty derived region (`extractState` never returns the empty string, and
every record of the demo generator has a nonempty `state`). -/
def validFetch : FetchResult → Prop
  | .success charities _ => ∀ c ∈ charities, c.state ≠ ""
  | .failure _ => True

/-- States reachable from the freshly mounted component by any sequence of
controller operations and fetch-loop iterations. -/
inductive Reachable : AppState → Prop where
  | init : Reachable initState
  | start {s} : Reachable s → Reachable (startScraping s)
  | pause {s} : Reachable s → Reachable (pauseScraping s)
  | reset {s} : Reachable s → Reachable (resetScraper s)
  | restore {s} : Reachable s → Reachable (restoreFromStorage s)
  | step {s} (f : FetchResult) : Reachable s → validFetch f →
      Reachable (processNextPage s f).1

/-! ## Exporter (`exportToCSV` of the `App` component)

The export sorts a copy of the record store by name (`[...charityData]`
spreads into a fresh array before the in-place sort, so the store itself is
untouched; the stable comparator `a.name.localeCompare(b.name)` is modelled
as code-point lexicographic order), then emits a header row and one row per
record with every field wrapped in double quotes; the four text fields have
literal quotes doubled, the state field is emitted verbatim; rows are joined
with a single newline and fields with commas. -/

/-- Double every literal quote, modelling `field.replace(/"/g, '""')`. -/
def escapeQuotes : List Char → List Char
  | [] => []
  | c :: cs => if c = '"' then '"' :: '"' :: escapeQuotes cs else c :: escapeQuotes cs

/-- A quoted, quote-escaped CSV field. -/
def quoteField (s : String) : List Char :=
  '"' :: (escapeQuotes s.data ++ ['"'])

/-- The state field: wrapped in quotes but not escaped (`"${charity.state}"`). -/
def rawQuoted (s : String) : List Char :=
  '"' :: (s.data ++ ['"'])

/-- Join of character chunks, `Array.prototype.join(sep)`. -/
def joinSep (sep : Char) : List (List Char) → List Char
  | [] => []
  | [r] => r
  | r :: r' :: rs => r ++ sep :: joinSep sep (r' :: rs)

/-- One CSV data row in the fixed field order name, address, website,
email-or-empty, state (`charity.email?.replace(...) || ''` yields the empty
field both for a null and for an empty email). -/
def csvRowOf (c : Charity) : List Char :=
  joinSep ','
    [quoteField c.name, quoteField c.address, quoteField c.website,
     quoteField (c.email.getD ""), rawQuoted c.state]

/-- The unquoted header row `headers.join(',')`. -/
def headerChars : List Char := "Name,Address,Website,Email,State".data

/-- Stable insertion of a record among already-sorted records: a later
arrival goes after every record with a smaller-or-equal name. -/
def insertByName (c : Charity) : List Charity → List Charity
  | [] => [c]
  | d :: ds => if c.name < d.name then c :: d :: ds else d :: insertByName c ds

/-- Stable sort by name, modelling the stable
`sort((a, b) => a.name.localeCompare(b.name))`. -/
def sortByName : List Charity → List Charity
  | [] => []
  | c :: cs => insertByName c (sortByName cs)

/-- The full CSV text as characters: header plus one row per sorted record,
joined by newlines, no trailing newline. -/
def exportCsvChars (recs : List Charity) : List Char :=
  joinSep '\n' (headerChars :: (sortByName recs).map csvRowOf)

/-- Output of `exportToCSV`: `none` on an empty store (the function logs
`No data to export` and returns without producing a file). -/
def exportToCSV (recs : List Charity) : Option String :=
  if recs = [] then none else some (String.mk (exportCsvChars recs))

/-- Export as a state operation: the produced text (if any) together
with the next controller state.  The spread copy before sorting leaves the
record store unchanged; only the log and the transient exporting flag move. -/
def exportOp (s : AppState) : Option String × AppState :=
  if s.charityData = [] then
    (none, { s with log := s.log ++ ["No data to export"] })
  else
    (some (String.mk (exportCsvChars s.charityData)),
     { s with
        isExporting := false
        log := s.log ++
          ["Preparing CSV export...",
           "Exported " ++ toString (sortByName s.charityData).length ++ " items to CSV"] })

/-! ## A standard delimited-text reader

A quote-aware splitter: separators count only at even quote parity, and a
doubled quote inside a quoted field is read back as one literal quote.  This
is the `"`-quoting, `""`-escaping reader of the round-trip property. -/

/-- Prepend a character to the first chunk. -/
def consHead (c : Char) : List (List Char) → List (List Char)
  | [] => [[c]]
  | r :: rs => (c :: r) :: rs

/-- Split on `sep`, ignoring separators inside quotes (`inQ` is the current
quote parity). -/
def splitUnq (sep : Char) : Bool → List Char → List (List Char)
  | _, [] => [[]]
  | inQ, c :: cs =>
    if c = sep ∧ inQ = false then [] :: splitUnq sep false cs
    else if c = '"' then consHead c (splitUnq sep (!inQ) cs)
    else consHead c (splitUnq sep inQ cs)

/-- Undo quote doubling inside a field body. -/
def collapseDoubled : List Char → List Char
  | [] => []
  | [c] => [c]
  | c :: d :: cs =>
    if c = '"' ∧ d = '"' then '"' :: collapseDoubled cs
    else c :: collapseDoubled (d :: cs)

/-- Read back one field: strip the surrounding quotes when present and
collapse doubled quotes; leave bare fields as they are. -/
def unquoteField (f : List Char) : List Char :=
  if 2 ≤ f.length ∧ f.head? = some '"' ∧ f.getLast? = some '"' then
    collapseDoubled (f.drop 1).dropLast
  else f

/-- The full reader: split rows on unquoted newlines, fields on unquoted
commas, then unquote each field. -/
def parseCSV (s : String) : List (List String) :=
  (splitUnq '\n' false s.data).map
    (fun row => (splitUnq ',' false row).map (fun f => String.mk (unquoteField f)))

/-! ## Lemmas about substring containment and the name table -/

theorem startsWithL_iff : ∀ n h : List Char, startsWithL n h = true ↔ ∃ t, h = n ++ t
  | [], h => by simp [startsWithL]
  | a :: as, [] => by simp [startsWithL]
  | a :: as, b :: bs => by
    rw [startsWithL]
    simp only [Bool.and_eq_true, beq_iff_eq, startsWithL_iff as bs]
    constructor
    · rintro ⟨rfl, t, rfl⟩
      exact ⟨t, rfl⟩
    · rintro ⟨t, ht⟩
      rw [List.cons_append] at ht
      injection ht with h1 h2
      exact ⟨h1.symm, t, h2⟩

theorem hasSubL_iff : ∀ n h : List Char, hasSubL n h = true ↔ ∃ p t, h = p ++ n ++ t
  | n, [] => by
    rw [hasSubL]
    simp only [List.isEmpty_iff]
    constructor
    · rintro rfl
      exact ⟨[], [], rfl⟩
    · rintro ⟨p, t, ht⟩
      exact (List.append_eq_nil.mp (List.append_eq_nil.mp ht.symm).1).2
  | n, b :: bs => by
    rw [hasSubL]
    simp only [Bool.or_eq_true, startsWithL_iff, hasSubL_iff n bs]
    constructor
    · rintro (⟨t, ht⟩ | ⟨p, t, ht⟩)
      · exact ⟨[], t, by simpa using ht⟩
      · exact ⟨b :: p, t, by simp [ht]⟩
    · rintro ⟨p, t, ht⟩
      cases p with
      | nil => exact Or.inl ⟨t, by simpa using ht⟩
      | cons x xs =>
        right
        rw [List.cons_append, List.cons_append] at ht
        injection ht with h1 h2
        exact ⟨xs, t, h2⟩

/-- Substring containment is transitive. -/
theorem hasSubStr_trans {a b c : String} (h1 : hasSubStr a b = true)
    (h2 : hasSubStr b c = true) : hasSubStr a c = true := by
  unfold hasSubStr at *
  rw [hasSubL_iff] at h1 h2 ⊢
  obtain ⟨p1, t1, e1⟩ := h1
  obtain ⟨p2, t2, e2⟩ := h2
  exact ⟨p2 ++ p1, t1 ++ t2, by simp [e2, e1]⟩

/-- A string containing a nonempty substring is nonempty. -/
theorem ne_empty_of_hasSubStr {n s : String} (hn : n.data ≠ [])
    (h : hasSubStr n s = true) : s ≠ "" := by
  intro hs
  subst hs
  rw [hasSubStr, hasSubL_iff] at h
  obtain ⟨p, t, ht⟩ := h
  rcases List.append_eq_nil.mp (List.append_eq_nil.mp ht.symm).1 with ⟨-, h2⟩
  exact hn h2

/-- Scanning a concatenated table tries the front part first. -/
theorem nameScan_append : ∀ (l1 l2 : List (String × String)) (addr : String),
    nameScan (l1 ++ l2) addr =
      match nameScan l1 addr with
      | some c => some c
      | none => nameScan l2 addr
  | [], l2, addr => by simp [nameScan]
  | (name, code) :: rest, l2, addr => by
    by_cases h : hasSubStr name addr
    · simp [nameScan, h]
    · simp [nameScan, h, nameScan_append rest l2 addr]

/-- A successful table scan returns one of the table codes. -/
theorem nameScan_mem : ∀ (l : List (String × String)) (addr c : String),
    nameScan l addr = some c → c ∈ l.map Prod.snd
  | [], addr, c => by simp [nameScan]
  | (name, code) :: rest, addr, c => by
    by_cases h : hasSubStr name addr
    · simp [nameScan, h]
      rintro rfl
      exact Or.inl rfl
    · simp only [nameScan, h, if_neg, List.map_cons, List.mem_cons, ite_false]
      intro hc
      exact Or.inr (nameScan_mem rest addr c hc)

/-- The 45 table entries strictly before the `Virginia` entry. -/
def statesPre : List (String × String) := statesTable.take 45

/-- With `"Virginia"` contained in the address, the table scan never gets
past the `Virginia` entry (index 45): it returns the first matching code
among the 45 earlier entries, or `"VA"`. -/
theorem nameScan_virginia (addr : String) (h : hasSubStr "Virginia" addr = true) :
    nameScan statesTable addr =
      match nameScan statesPre addr with
      | some c => some c
      | none => some "VA" := by
  have hsplit : statesTable = statesPre ++ ("Virginia", "VA") :: statesTable.drop 46 := by
    decide
  rw [hsplit, nameScan_append]
  cases hpre : nameScan statesPre addr with
  | some c => simp
  | none =>
    have hstep : nameScan (("Virginia", "VA") :: statesTable.drop 46) addr =
        if hasSubStr "Virginia" addr then some "VA"
        else nameScan (statesTable.drop 46) addr := rfl
    simp only [hstep, h, if_true]

/-- A successful leftmost regex match captures two uppercase letters. -/
theorem matchCodeAt_shape {l : List Char} {c : String} (h : matchCodeAt l = some c) :
    ∃ a b, c = String.mk [a, b] ∧ isUpperAZ a = true ∧ isUpperAZ b = true := by
  match l with
  | [] => simp [matchCodeAt] at h
  | [a] => simp [matchCodeAt] at h
  | [a, b] => simp [matchCodeAt] at h
  | a :: b :: d :: rest =>
    by_cases hc : (isUpperAZ a && isUpperAZ b && isJsSpace d && afterSpaces rest) = true
    · refine ⟨a, b, ?_, ?_, ?_⟩
      · simp [matchCodeAt, hc] at h
        exact h.symm
      · simp only [Bool.and_eq_true] at hc
        exact hc.1.1.1
      · simp only [Bool.and_eq_true] at hc
        exact hc.1.1.2
    · simp [matchCodeAt, hc] at h

/-- The regex scan only ever captures two uppercase letters. -/
theorem zipScan_shape : ∀ (l : List Char) (c : String), zipScan l = some c →
    ∃ a b, c = String.mk [a, b] ∧ isUpperAZ a = true ∧ isUpperAZ b = true
  | [], c => by simp [zipScan]
  | a :: rest, c => by
    intro h
    rw [zipScan] at h
    cases hm : matchCodeAt (a :: rest) with
    | some s =>
      rw [hm] at h
      exact (Option.some.injEq _ _ ▸ h) ▸ matchCodeAt_shape hm
    | none =>
      rw [hm] at h
      exact zipScan_shape rest c h

/-- Region derivation never yields the empty string: the regex branch
captures two letters, the table branch one of the 51 nonempty codes, and the
fallback is the sentinel. -/
theorem extractState_ne_empty (addr : String) : extractState addr ≠ "" := by
  unfold extractState
  by_cases he : addr = ""
  · simp [he]
  · simp only [he, if_false]
    cases hz : zipScan addr.data with
    | some code =>
      obtain ⟨a, b, rfl, -, -⟩ := zipScan_shape addr.data code hz
      intro hcontra
      have : ([a, b] : List Char) = [] := congrArg String.data hcontra
      simp at this
    | none =>
      cases hn : nameScan statesTable addr with
      | some code =>
        have hmem := nameScan_mem statesTable addr code hn
        have : ∀ c ∈ statesTable.map Prod.snd, c ≠ "" := by decide
        exact this code hmem
      | none => simp

/-- Region derivation never yields a string containing a double quote. -/
theorem extractState_no_quote (addr : String) : '"' ∉ (extractState addr).data := by
  unfold extractState
  by_cases he : addr = ""
  · simp only [he, if_true]
    decide
  · simp only [he, if_false]
    cases hz : zipScan addr.data with
    | some code =>
      obtain ⟨a, b, rfl, ha, hb⟩ := zipScan_shape addr.data code hz
      intro hmem
      have hmem2 : ('"' : Char) ∈ [a, b] := hmem
      have hq : ∀ c : Char, isUpperAZ c = true → c ≠ '"' := by
        intro c hc hcq
        subst hcq
        simp [isUpperAZ] at hc
      rcases List.mem_cons.mp hmem2 with h | h
      · exact hq a ha h.symm
      · rcases List.mem_cons.mp h with h2 | h2
        · exact hq b hb h2.symm
        · simp at h2
    | none =>
      cases hn : nameScan statesTable addr with
      | some code =>
        have hmem := nameScan_mem statesTable addr code hn
        have : ∀ c ∈ statesTable.map Prod.snd, '"' ∉ c.data := by decide
        exact this code hmem
      | none => decide

/-! ## Lemmas about the region tally -/

theorem getCount_bump_self : ∀ (t : List (String × Nat)) (k : String),
    getCount (bump t k) k = getCount t k + 1
  | [], k => by simp [bump, getCount, List.find?]
  | (k', n) :: rest, k => by
    by_cases h : k' = k
    · subst h
      simp [bump, getCount, List.find?]
    · simp only [bump, h, if_false]
      have hb : (k' == k) = false := beq_false_of_ne h
      simp only [getCount, List.find?, hb]
      exact getCount_bump_self rest k

theorem getCount_bump_ne : ∀ (t : List (String × Nat)) (k k' : String), k' ≠ k →
    getCount (bump t k) k' = getCount t k'
  | [], k, k', hne => by
    have hb : (k == k') = false := beq_false_of_ne (Ne.symm hne)
    simp [bump, getCount, List.find?, hb]
  | (k0, n) :: rest, k, k', hne => by
    by_cases h : k0 = k
    · subst h
      have hb : (k0 == k') = false := by
        exact beq_false_of_ne fun hc => hne (hc.symm)
      simp [bump, getCount, List.find?, hb]
    · simp only [bump, h, if_false]
      by_cases h0 : k0 = k'
      · subst h0
        simp [getCount, List.find?]
      · have hb : (k0 == k') = false := beq_false_of_ne h0
        simp only [getCount, List.find?, hb]
        exact getCount_bump_ne rest k k' hne

theorem sum_bump : ∀ (t : List (String × Nat)) (k : String),
    ((bump t k).map Prod.snd).sum = (t.map Prod.snd).sum + 1
  | [], k => by simp [bump]
  | (k', n) :: rest, k => by
    by_cases h : k' = k
    · subst h
      simp [bump]
      omega
    · simp only [bump, h, if_false, List.map_cons, List.sum_cons, sum_bump rest k]
      omega

theorem getCount_mergeTally : ∀ (cs : List Charity) (t : List (String × Nat)) (k : String),
    getCount (mergeTally t cs) k =
      getCount t k + cs.countP (fun c => normKey c.state == k)
  | [], t, k => by simp [mergeTally]
  | c :: cs, t, k => by
    have hstep : mergeTally t (c :: cs) = mergeTally (bump t (normKey c.state)) cs := rfl
    rw [hstep, getCount_mergeTally cs (bump t (normKey c.state)) k, List.countP_cons]
    by_cases h : normKey c.state = k
    · subst h
      rw [getCount_bump_self]
      simp
      omega
    · rw [getCount_bump_ne t (normKey c.state) k (Ne.symm h)]
      have hb : (normKey c.state == k) = false := beq_false_of_ne h
      simp [hb]

theorem sum_mergeTally : ∀ (cs : List Charity) (t : List (String × Nat)),
    ((mergeTally t cs).map Prod.snd).sum = (t.map Prod.snd).sum + cs.length
  | [], t => by simp [mergeTally]
  | c :: cs, t => by
    have hstep : mergeTally t (c :: cs) = mergeTally (bump t (normKey c.state)) cs := rfl
    rw [hstep, sum_mergeTally cs (bump t (normKey c.state)), sum_bump]
    simp
    omega

/-! ## The controller invariant -/

/-- The invariant holding in every reachable controller state: the batch
counter is bounded by 1000; the cursor is positive; a running controller can
still be restarted after any halt (`hasMorePages` or first page); every
stored and every snapshotted record carries a nonempty region; and the tally
is exactly the per-region count of the record store. -/
structure Inv (s : AppState) : Prop where
  pcLe : s.processedCount ≤ 1000
  pageGe : 1 ≤ s.currentPage
  resumable : s.isRunning = true → s.hasMorePages = true ∨ s.currentPage = 1
  storeValid : ∀ c ∈ s.charityData, c.state ≠ ""
  savedValid : ∀ l, s.localSaved = some l → ∀ c ∈ l, c.state ≠ ""
  tallyCount : ∀ k, getCount s.states k =
    s.charityData.countP (fun c => normKey c.state == k)
  tallySum : (s.states.map Prod.snd).sum = s.charityData.length

theorem inv_init : Inv initState := by
  constructor <;> simp [initState, getCount, List.find?]

theorem inv_start {s : AppState} (h : Inv s) : Inv (startScraping s) := by
  unfold startScraping
  by_cases hc : s.hasMorePages = false ∧ 1 < s.currentPage
  · rw [if_pos hc]
    exact ⟨h.pcLe, h.pageGe, h.resumable, h.storeValid, h.savedValid, h.tallyCount,
      h.tallySum⟩
  · rw [if_neg hc]
    refine ⟨h.pcLe, h.pageGe, ?_, h.storeValid, h.savedValid, h.tallyCount, h.tallySum⟩
    intro hrun
    show s.hasMorePages = true ∨ s.currentPage = 1
    rcases not_and_or.mp hc with h1 | h2
    · left
      revert h1
      cases s.hasMorePages <;> simp
    · right
      have hge := h.pageGe
      omega

theorem inv_pause {s : AppState} (h : Inv s) : Inv (pauseScraping s) := by
  refine ⟨h.pcLe, h.pageGe, ?_, h.storeValid, h.savedValid, h.tallyCount, h.tallySum⟩
  intro hr
  simp [pauseScraping] at hr

theorem inv_reset {s : AppState} (_h : Inv s) : Inv (resetScraper s) := by
  unfold resetScraper
  constructor <;> simp [getCount, List.find?]

theorem inv_restore {s : AppState} (h : Inv s) : Inv (restoreFromStorage s) := by
  unfold restoreFromStorage
  cases hl : s.localSaved with
  | none => exact h
  | some saved =>
    have hvalid := h.savedValid saved hl
    constructor
    · exact h.pcLe
    · exact h.pageGe
    · exact h.resumable
    · exact hvalid
    · intro l hsome
      exact h.savedValid l (hl ▸ hsome)
    · intro k
      rw [getCount_mergeTally]
      simp [getCount, List.find?]
    · rw [sum_mergeTally]
      simp

/-! ## Branch equations for one fetch-loop iteration -/

/-- Entry guard: no fetch happens when the controller is not running or the
batch counter has reached the limit; only the transient processing flag is
cleared. -/
theorem processNextPage_guard (s : AppState) (f : FetchResult)
    (hg : s.isRunning = false ∨ 1000 ≤ s.processedCount) :
    processNextPage s f = ({ s with isProcessing := false }, false) := by
  unfold processNextPage
  rw [if_pos hg]

/-- A failing fetch logs the error and stops the run, touching nothing else. -/
theorem processNextPage_failure (s : AppState) (msg : String)
    (hrun : s.isRunning = true) (hpc : s.processedCount < 1000) :
    processNextPage s (.failure msg) =
      ({ s with
          isRunning := false
          isProcessing := false
          log := s.log ++
            ["Processing page " ++ toString s.currentPage ++ "...",
             "Error processing page " ++ toString s.currentPage ++ ": " ++ msg] }, true) := by
  unfold processNextPage
  rw [if_neg (by rw [hrun]; simp; omega)]
  simp

/-- An empty page is the exhaustion signal: `hasMore` from the source is
ignored, the store, tally, cursor and counter are untouched. -/
theorem processNextPage_empty (s : AppState) (hm : Bool)
    (hrun : s.isRunning = true) (hpc : s.processedCount < 1000) :
    processNextPage s (.success [] hm) =
      ({ s with
          hasMorePages := false
          isRunning := false
          isProcessing := false
          log := s.log ++
            ["Processing page " ++ toString s.currentPage ++ "...",
             "No more items found. Scraping complete."] }, true) := by
  unfold processNextPage
  rw [if_neg (by rw [hrun]; simp; omega)]
  simp

/-- A page that carries the counter to the limit: the whole page is merged,
the counter is clamped to exactly 1000, the run stops and `hasMorePages`
keeps its previous value. -/
theorem processNextPage_batch (s : AppState) (cs : List Charity) (hm : Bool)
    (hrun : s.isRunning = true) (hpc : s.processedCount < 1000)
    (hlim : 1000 ≤ s.processedCount + cs.length) :
    processNextPage s (.success cs hm) =
      ({ s with
          states := mergeTally s.states cs
          charityData := s.charityData ++ cs
          localSaved := some (s.charityData ++ cs)
          currentPage := s.currentPage + 1
          processedCount := 1000
          isRunning := false
          isProcessing := false
          log := s.log ++
            ["Processing page " ++ toString s.currentPage ++ "...",
             "Processed page " ++ toString s.currentPage ++ ", found " ++
               toString cs.length ++ " new items",
             "Batch complete. Click \"Continue\" to process the next batch."] }, true) := by
  have hemp : cs ≠ [] := by
    intro hc
    subst hc
    simp at hlim
    omega
  unfold processNextPage
  rw [if_neg (by rw [hrun]; simp; omega)]
  simp only [if_neg hemp, if_pos hlim]
  have hclamp : (if 1000 < s.processedCount + cs.length then 1000
      else s.processedCount + cs.length) = 1000 := by
    split <;> omega
  simp [hclamp]

/-- A successful page within the limit whose continuation flag is false:
merge, advance, then halt as complete. -/
theorem processNextPage_noMore (s : AppState) (cs : List Charity)
    (hrun : s.isRunning = true) (hpc : s.processedCount < 1000)
    (hemp : cs ≠ []) (hlim : s.processedCount + cs.length < 1000) :
    processNextPage s (.success cs false) =
      ({ s with
          states := mergeTally s.states cs
          charityData := s.charityData ++ cs
          localSaved := some (s.charityData ++ cs)
          currentPage := s.currentPage + 1
          processedCount := s.processedCount + cs.length
          hasMorePages := false
          isRunning := false
          isProcessing := false
          log := s.log ++
            ["Processing page " ++ toString s.currentPage ++ "...",
             "Processed page " ++ toString s.currentPage ++ ", found " ++
               toString cs.length ++ " new items",
             "No more items found. Scraping complete."] }, true) := by
  unfold processNextPage
  rw [if_neg (by rw [hrun]; simp; omega)]
  simp only [if_neg hemp, if_neg (by omega : ¬1000 ≤ s.processedCount + cs.length)]
  have hclamp : (if 1000 < s.processedCount + cs.length then 1000
      else s.processedCount + cs.length) = s.processedCount + cs.length := by
    split <;> omega
  simp [hclamp]

/-- A successful page within the limit with a true continuation flag:
merge, advance, stay running and schedule the next iteration. -/
theorem processNextPage_continue (s : AppState) (cs : List Charity)
    (hrun : s.isRunning = true) (hpc : s.processedCount < 1000)
    (hemp : cs ≠ []) (hlim : s.processedCount + cs.length < 1000) :
    processNextPage s (.success cs true) =
      ({ s with
          states := mergeTally s.states cs
          charityData := s.charityData ++ cs
          localSaved := some (s.charityData ++ cs)
          currentPage := s.currentPage + 1
          processedCount := s.processedCount + cs.length
          hasMorePages := true
          isProcessing := false
          log := s.log ++
            ["Processing page " ++ toString s.currentPage ++ "...",
             "Processed page " ++ toString s.currentPage ++ ", found " ++
               toString cs.length ++ " new items"] }, true) := by
  unfold processNextPage
  rw [if_neg (by rw [hrun]; simp; omega)]
  simp only [if_neg hemp, if_neg (by omega : ¬1000 ≤ s.processedCount + cs.length)]
  have hclamp : (if 1000 < s.processedCount + cs.length then 1000
      else s.processedCount + cs.length) = s.processedCount + cs.length := by
    split <;> omega
  simp [hclamp]

/-! ## Invariant preservation through one iteration -/

theorem storeValid_append {store cs : List Charity}
    (h1 : ∀ c ∈ store, c.state ≠ "") (h2 : ∀ c ∈ cs, c.state ≠ "") :
    ∀ c ∈ store ++ cs, c.state ≠ "" := by
  intro c hc
  rcases List.mem_append.mp hc with h | h
  exacts [h1 c h, h2 c h]

theorem tallyCount_append {t : List (String × Nat)} {store cs : List Charity}
    (h : ∀ k, getCount t k = store.countP (fun c => normKey c.state == k)) :
    ∀ k, getCount (mergeTally t cs) k =
      (store ++ cs).countP (fun c => normKey c.state == k) := by
  intro k
  rw [getCount_mergeTally, h k, List.countP_append]

theorem tallySum_append {t : List (String × Nat)} {store : List Charity}
    (cs : List Charity) (h : (t.map Prod.snd).sum = store.length) :
    ((mergeTally t cs).map Prod.snd).sum = (store ++ cs).length := by
  rw [sum_mergeTally, h, List.length_append]

theorem inv_step {s : AppState} (f : FetchResult) (h : Inv s) (hf : validFetch f) :
    Inv (processNextPage s f).1 := by
  by_cases hg : s.isRunning = false ∨ 1000 ≤ s.processedCount
  · rw [processNextPage_guard s f hg]
    exact ⟨h.pcLe, h.pageGe, h.resumable, h.storeValid, h.savedValid, h.tallyCount,
      h.tallySum⟩
  · have hrun : s.isRunning = true := by
      rcases not_or.mp hg with ⟨h1, -⟩
      revert h1
      cases s.isRunning <;> simp
    have hpc : s.processedCount < 1000 := by
      rcases not_or.mp hg with ⟨-, h2⟩
      omega
    cases f with
    | failure msg =>
      rw [processNextPage_failure s msg hrun hpc]
      refine ⟨h.pcLe, h.pageGe, ?_, h.storeValid, h.savedValid, h.tallyCount, h.tallySum⟩
      intro hr
      exact absurd hr Bool.false_ne_true
    | success cs hm =>
      by_cases hemp : cs = []
      · subst hemp
        rw [processNextPage_empty s hm hrun hpc]
        refine ⟨h.pcLe, h.pageGe, ?_, h.storeValid, h.savedValid, h.tallyCount, h.tallySum⟩
        intro hr
        exact absurd hr Bool.false_ne_true
      · have hcs : ∀ c ∈ cs, c.state ≠ "" := hf
        have hsaved : ∀ l, some (s.charityData ++ cs) = some l → ∀ c ∈ l, c.state ≠ "" := by
          intro l hl
          injection hl with hl
          exact hl ▸ storeValid_append h.storeValid hcs
        have hpage := h.pageGe
        by_cases hlim : 1000 ≤ s.processedCount + cs.length
        · rw [processNextPage_batch s cs hm hrun hpc hlim]
          refine ⟨le_refl 1000, ?_, fun hr => absurd hr Bool.false_ne_true,
            storeValid_append h.storeValid hcs, hsaved,
            tallyCount_append h.tallyCount, tallySum_append cs h.tallySum⟩
          show 1 ≤ s.currentPage + 1
          omega
        · have hlim' : s.processedCount + cs.length < 1000 := by omega
          cases hm with
          | false =>
            rw [processNextPage_noMore s cs hrun hpc hemp hlim']
            refine ⟨?_, ?_, fun hr => absurd hr Bool.false_ne_true,
              storeValid_append h.storeValid hcs, hsaved,
              tallyCount_append h.tallyCount, tallySum_append cs h.tallySum⟩
            · show s.processedCount + cs.length ≤ 1000
              omega
            · show 1 ≤ s.currentPage + 1
              omega
          | true =>
            rw [processNextPage_continue s cs hrun hpc hemp hlim']
            refine ⟨?_, ?_, fun _ => Or.inl rfl,
              storeValid_append h.storeValid hcs, hsaved,
              tallyCount_append h.tallyCount, tallySum_append cs h.tallySum⟩
            · show s.processedCount + cs.length ≤ 1000
              omega
            · show 1 ≤ s.currentPage + 1
              omega

/-- Every reachable controller state satisfies the invariant. -/
theorem reachable_inv {s : AppState} (h : Reachable s) : Inv s := by
  induction h with
  | init => exact inv_init
  | start _ ih => exact inv_start ih
  | pause _ ih => exact inv_pause ih
  | reset _ ih => exact inv_reset ih
  | restore _ ih => exact inv_restore ih
  | step f _ hf ih => exact inv_step f ih hf

/-! ## Round-trip lemmas for the CSV text

`cleanFrom sep inQ l` says that scanning `l` from quote parity `inQ` never
meets `sep` at even parity and ends at even parity: such a chunk passes
through the quote-aware splitter unsplit. -/

def cleanFrom (sep : Char) : Bool → List Char → Bool
  | inQ, [] => !inQ
  | inQ, c :: cs =>
    if c = sep ∧ inQ = false then false
    else cleanFrom sep (if c = '"' then !inQ else inQ) cs

theorem cleanFrom_append (sep : Char) :
    ∀ (a : List Char) (inQ : Bool) (b : List Char), cleanFrom sep inQ a = true →
      cleanFrom sep inQ (a ++ b) = cleanFrom sep false b
  | [], inQ, b, h => by
    have : inQ = false := by
      revert h
      cases inQ <;> simp [cleanFrom]
    subst this
    rfl
  | c :: cs, inQ, b, h => by
    rw [cleanFrom] at h
    by_cases hc : c = sep ∧ inQ = false
    · rw [if_pos hc] at h
      cases h
    · rw [if_neg hc] at h
      rw [List.cons_append, cleanFrom, if_neg hc]
      exact cleanFrom_append sep cs _ b h

theorem cleanFrom_cons_of_ne {sep c : Char} (l : List Char)
    (h1 : c ≠ sep) (h2 : c ≠ '"') :
    cleanFrom sep false (c :: l) = cleanFrom sep false l := by
  rw [cleanFrom, if_neg (by simp [h1]), if_neg h2]

/-- Scanning the quote-escaped interior of a quoted field (followed by its
closing quote) from odd parity is clean for any separator other than the
quote character. -/
theorem cleanFrom_escaped_inner {sep : Char} (hsep : sep ≠ '"') :
    ∀ l : List Char, cleanFrom sep true (escapeQuotes l ++ ['"']) = true
  | [] => by
    simp only [escapeQuotes, List.nil_append]
    rw [cleanFrom, if_neg (by simp), if_pos rfl]
    rfl
  | c :: cs => by
    rw [escapeQuotes]
    by_cases hc : c = '"'
    · subst hc
      rw [if_pos rfl]
      rw [List.cons_append, cleanFrom, if_neg (by simp), if_pos rfl]
      rw [List.cons_append, cleanFrom,
        if_neg (by rintro ⟨h1, -⟩; exact hsep h1.symm), if_pos rfl]
      exact cleanFrom_escaped_inner hsep cs
    · rw [if_neg hc]
      rw [List.cons_append, cleanFrom, if_neg (by simp), if_neg hc]
      exact cleanFrom_escaped_inner hsep cs

/-- Same, for an unescaped interior known to contain no quote (the state
field). -/
theorem cleanFrom_plain_inner {sep : Char} (hsep : sep ≠ '"') :
    ∀ l : List Char, '"' ∉ l → cleanFrom sep true (l ++ ['"']) = true
  | [], _ => by
    simp only [List.nil_append]
    rw [cleanFrom, if_neg (by simp), if_pos rfl]
    rfl
  | c :: cs, h => by
    have hc : c ≠ '"' := fun hq => h (hq ▸ List.mem_cons_self c cs)
    rw [List.cons_append, cleanFrom, if_neg (by simp), if_neg hc]
    exact cleanFrom_plain_inner hsep cs (fun hm => h (List.mem_cons_of_mem c hm))

theorem cleanFrom_quoteField {sep : Char} (hsep : sep ≠ '"') (s : String) :
    cleanFrom sep false (quoteField s) = true := by
  rw [quoteField, cleanFrom,
    if_neg (by rintro ⟨h1, -⟩; exact hsep h1.symm), if_pos rfl]
  exact cleanFrom_escaped_inner hsep s.data

theorem cleanFrom_rawQuoted {sep : Char} (hsep : sep ≠ '"') (s : String)
    (hq : '"' ∉ s.data) : cleanFrom sep false (rawQuoted s) = true := by
  rw [rawQuoted, cleanFrom,
    if_neg (by rintro ⟨h1, -⟩; exact hsep h1.symm), if_pos rfl]
  exact cleanFrom_plain_inner hsep s.data hq

/-- A clean chunk followed by a separator splits off exactly. -/
theorem splitUnq_of_clean (sep : Char) :
    ∀ (r : List Char) (inQ : Bool) (t : List Char), cleanFrom sep inQ r = true →
      splitUnq sep inQ (r ++ sep :: t) = r :: splitUnq sep false t
  | [], inQ, t, h => by
    have : inQ = false := by
      revert h
      cases inQ <;> simp [cleanFrom]
    subst this
    rw [List.nil_append, splitUnq, if_pos ⟨rfl, rfl⟩]
  | c :: cs, inQ, t, h => by
    rw [cleanFrom] at h
    by_cases hc : c = sep ∧ inQ = false
    · rw [if_pos hc] at h
      cases h
    · rw [if_neg hc] at h
      rw [List.cons_append, splitUnq, if_neg hc]
      by_cases hq : c = '"'
      · rw [if_pos hq, splitUnq_of_clean sep cs _ t (by rwa [if_pos hq] at h)]
        rfl
      · rw [if_neg hq, splitUnq_of_clean sep cs _ t (by rwa [if_neg hq] at h)]
        rfl

/-- A clean final chunk stays in one piece. -/
theorem splitUnq_of_clean_last (sep : Char) :
    ∀ (r : List Char) (inQ : Bool), cleanFrom sep inQ r = true →
      splitUnq sep inQ r = [r]
  | [], inQ, h => by
    have : inQ = false := by
      revert h
      cases inQ <;> simp [cleanFrom]
    subst this
    rfl
  | c :: cs, inQ, h => by
    rw [cleanFrom] at h
    by_cases hc : c = sep ∧ inQ = false
    · rw [if_pos hc] at h
      cases h
    · rw [if_neg hc] at h
      rw [splitUnq, if_neg hc]
      by_cases hq : c = '"'
      · rw [if_pos hq, splitUnq_of_clean_last sep cs _ (by rwa [if_pos hq] at h)]
        rfl
      · rw [if_neg hq, splitUnq_of_clean_last sep cs _ (by rwa [if_neg hq] at h)]
        rfl

/-- The splitter inverts `joinSep` on a nonempty list of clean chunks. -/
theorem splitUnq_joinSep (sep : Char) :
    ∀ chunks : List (List Char), chunks ≠ [] →
      (∀ r ∈ chunks, cleanFrom sep false r = true) →
      splitUnq sep false (joinSep sep chunks) = chunks
  | [], hne, _ => absurd rfl hne
  | [r], _, hclean => by
    rw [joinSep]
    exact splitUnq_of_clean_last sep r false (hclean r (List.mem_singleton.mpr rfl))
  | r :: r' :: rs, _, hclean => by
    rw [joinSep, splitUnq_of_clean sep r false _ (hclean r (List.mem_cons_self _ _))]
    rw [splitUnq_joinSep sep (r' :: rs) (by simp)
      (fun x hx => hclean x (List.mem_cons_of_mem r hx))]

/-! ## Field-level round trip -/

theorem escapeQuotes_eq_nil {l : List Char} (h : escapeQuotes l = []) : l = [] := by
  cases l with
  | nil => rfl
  | cons c cs =>
    rw [escapeQuotes] at h
    by_cases hc : c = '"'
    · rw [if_pos hc] at h
      cases h
    · rw [if_neg hc] at h
      cases h

theorem collapseDoubled_escapeQuotes : ∀ l : List Char,
    collapseDoubled (escapeQuotes l) = l
  | [] => rfl
  | c :: cs => by
    rw [escapeQuotes]
    by_cases hc : c = '"'
    · subst hc
      rw [if_pos rfl]
      rw [collapseDoubled, if_pos ⟨rfl, rfl⟩, collapseDoubled_escapeQuotes cs]
    · rw [if_neg hc]
      cases hcs : escapeQuotes cs with
      | nil =>
        rw [escapeQuotes_eq_nil hcs]
        rfl
      | cons d ds =>
        rw [collapseDoubled, if_neg (by rintro ⟨h1, -⟩; exact hc h1), ← hcs,
          collapseDoubled_escapeQuotes cs]

theorem collapseDoubled_no_quote : ∀ l : List Char, '"' ∉ l → collapseDoubled l = l
  | [], _ => rfl
  | [c], _ => rfl
  | c :: d :: cs, h => by
    have hc : c ≠ '"' := fun hq => h (hq ▸ List.mem_cons_self c (d :: cs))
    rw [collapseDoubled, if_neg (by rintro ⟨h1, -⟩; exact hc h1),
      collapseDoubled_no_quote (d :: cs) (fun hm => h (List.mem_cons_of_mem c hm))]

theorem unquoteField_quoteField (s : String) : unquoteField (quoteField s) = s.data := by
  rw [quoteField, unquoteField]
  rw [if_pos]
  · have hdrop : (('"' :: (escapeQuotes s.data ++ ['"'])).drop 1).dropLast
        = escapeQuotes s.data := by
      simp
    rw [hdrop, collapseDoubled_escapeQuotes]
  · refine ⟨by simp, by simp, ?_⟩
    rw [show ('"' :: (escapeQuotes s.data ++ ['"']))
        = ('"' :: escapeQuotes s.data) ++ ['"'] from rfl, List.getLast?_concat]

theorem unquoteField_rawQuoted (s : String) (hq : '"' ∉ s.data) :
    unquoteField (rawQuoted s) = s.data := by
  rw [rawQuoted, unquoteField]
  rw [if_pos]
  · have hdrop : (('"' :: (s.data ++ ['"'])).drop 1).dropLast = s.data := by
      simp
    rw [hdrop, collapseDoubled_no_quote s.data hq]
  · refine ⟨by simp, by simp, ?_⟩
    rw [show ('"' :: (s.data ++ ['"']))
        = ('"' :: s.data) ++ ['"'] from rfl, List.getLast?_concat]

theorem mk_data (s : String) : String.mk s.data = s := rfl

/-- Splitting one serialized data row on unquoted commas recovers its five
serialized fields. -/
theorem splitUnq_csvRow (c : Charity) (hq : '"' ∉ c.state.data) :
    splitUnq ',' false (csvRowOf c) =
      [quoteField c.name, quoteField c.address, quoteField c.website,
       quoteField (c.email.getD ""), rawQuoted c.state] := by
  rw [csvRowOf]
  refine splitUnq_joinSep ',' _ (by simp) ?_
  intro r hr
  have hsep : (',' : Char) ≠ '"' := by decide
  simp only [List.mem_cons, List.mem_singleton] at hr
  rcases hr with rfl | rfl | rfl | rfl | rfl | h
  · exact cleanFrom_quoteField hsep c.name
  · exact cleanFrom_quoteField hsep c.address
  · exact cleanFrom_quoteField hsep c.website
  · exact cleanFrom_quoteField hsep (c.email.getD "")
  · exact cleanFrom_rawQuoted hsep c.state hq
  · cases h

/-- Parsing one serialized data row yields the record fields back. -/
theorem parseRow_csvRow (c : Charity) (hq : '"' ∉ c.state.data) :
    (splitUnq ',' false (csvRowOf c)).map (fun f => String.mk (unquoteField f)) =
      [c.name, c.address, c.website, c.email.getD "", c.state] := by
  rw [splitUnq_csvRow c hq]
  simp only [List.map_cons, List.map_nil, unquoteField_quoteField,
    unquoteField_rawQuoted c.state hq, mk_data]

/-- A serialized data row contains no unquoted newline. -/
theorem cleanNL_csvRow (c : Charity) (hq : '"' ∉ c.state.data) :
    cleanFrom '\n' false (csvRowOf c) = true := by
  have hsep : ('\n' : Char) ≠ '"' := by decide
  have hcomma1 : (',' : Char) ≠ '\n' := by decide
  have hcomma2 : (',' : Char) ≠ '"' := by decide
  rw [csvRowOf, joinSep, joinSep, joinSep, joinSep, joinSep]
  rw [cleanFrom_append '\n' _ false _ (cleanFrom_quoteField hsep c.name),
    cleanFrom_cons_of_ne _ hcomma1 hcomma2,
    cleanFrom_append '\n' _ false _ (cleanFrom_quoteField hsep c.address),
    cleanFrom_cons_of_ne _ hcomma1 hcomma2,
    cleanFrom_append '\n' _ false _ (cleanFrom_quoteField hsep c.website),
    cleanFrom_cons_of_ne _ hcomma1 hcomma2,
    cleanFrom_append '\n' _ false _ (cleanFrom_quoteField hsep (c.email.getD "")),
    cleanFrom_cons_of_ne _ hcomma1 hcomma2]
  exact cleanFrom_rawQuoted hsep c.state hq

theorem insertByName_perm (c : Charity) :
    ∀ l : List Charity, List.Perm (insertByName c l) (c :: l)
  | [] => List.Perm.refl _
  | d :: ds => by
    rw [insertByName]
    by_cases h : c.name < d.name
    · rw [if_pos h]
    · rw [if_neg h]
      exact ((insertByName_perm c ds).cons d).trans (List.Perm.swap c d ds)

/-- The export sort is a permutation of the record store. -/
theorem sortByName_perm : ∀ l : List Charity, List.Perm (sortByName l) l
  | [] => List.Perm.refl _
  | c :: cs => (insertByName_perm c (sortByName cs)).trans ((sortByName_perm cs).cons c)

/-- Parsing the exported text yields the header fields and then, for each
record in export (sorted) order, exactly the original field values. -/
theorem parseCSV_export (recs : List Charity) (hq : ∀ r ∈ recs, '"' ∉ r.state.data) :
    parseCSV (String.mk (exportCsvChars recs)) =
      ["Name", "Address", "Website", "Email", "State"] ::
        (sortByName recs).map
          (fun r => [r.name, r.address, r.website, r.email.getD "", r.state]) := by
  have hqsorted : ∀ r ∈ sortByName recs, '"' ∉ r.state.data := fun r hr =>
    hq r ((sortByName_perm recs).mem_iff.mp hr)
  rw [parseCSV]
  have hdata : (String.mk (exportCsvChars recs)).data = exportCsvChars recs := rfl
  rw [hdata, exportCsvChars]
  have hclean : ∀ r ∈ headerChars :: (sortByName recs).map csvRowOf,
      cleanFrom '\n' false r = true := by
    intro r hr
    rcases List.mem_cons.mp hr with rfl | hrow
    · decide
    · obtain ⟨r0, hr0, rfl⟩ := List.mem_map.mp hrow
      exact cleanNL_csvRow r0 (hqsorted r0 hr0)
  rw [splitUnq_joinSep '\n' _ (by simp) hclean]
  rw [List.map_cons]
  have hheader : (splitUnq ',' false headerChars).map
      (fun f => String.mk (unquoteField f)) =
      ["Name", "Address", "Website", "Email", "State"] := by decide
  rw [hheader, List.map_map]
  refine congrArg _ (List.map_congr_left ?_)
  intro r0 hr0
  exact parseRow_csvRow r0 (hqsorted r0 hr0)

/-- Whenever the entry guard passes (running, counter below the limit), the
iteration really performs a fetch, whatever its outcome. -/
theorem processNextPage_snd_true (s : AppState) (f : FetchResult)
    (hrun : s.isRunning = true) (hpc : s.processedCount < 1000) :
    (processNextPage s f).2 = true := by
  cases f with
  | failure msg => rw [processNextPage_failure s msg hrun hpc]
  | success cs hm =>
    by_cases hemp : cs = []
    · subst hemp
      rw [processNextPage_empty s hm hrun hpc]
    · by_cases hlim : 1000 ≤ s.processedCount + cs.length
      · rw [processNextPage_batch s cs hm hrun hpc hlim]
      · cases hm with
        | false => rw [processNextPage_noMore s cs hrun hpc hemp (by omega)]
        | true => rw [processNextPage_continue s cs hrun hpc hemp (by omega)]

/-- A sample record used to exercise the controller theorems. -/
def sampleCharity : Charity :=
  { name := "Sample Org"
    address := "1 Main St, Denver, CO 80201"
    website := "https://sample.example"
    email := none
    state := "CO" }

/-! ## The claims -/

/-- C4: for every address string, region derivation applies the precedence
regex-code-plus-ZIP, then first contained table name, then the sentinel
`"Unknown"`; in particular the three spec examples map to `"DC"`,
`"Unknown"` and `"IL"`; the function is pure, hence deterministic and
side-effect free. -/
theorem c4_region_precedence :
    (∀ addr : String, extractState addr =
      (zipScan addr.data).getD ((nameScan statesTable addr).getD "Unknown")) ∧
    extractState "431 18th Street NW, Washington, DC 20006" = "DC" ∧
    extractState "123 Main St, City, Nowhere" = "Unknown" ∧
    extractState "789 Pine Rd, Chicago, IL 60601" = "IL" := by
  refine ⟨?_, by decide, by decide, by decide⟩
  intro addr
  unfold extractState
  by_cases he : addr = ""
  · subst he
    decide
  · rw [if_neg he]
    cases hz : zipScan addr.data with
    | some c => simp
    | none =>
      cases hn : nameScan statesTable addr with
      | some c => simp [hn]
      | none => simp [hn]

/-- C7: a fetch returning an empty record sequence makes the controller set
`hasMore` to false and stop (the Complete halt), whatever the continuation
flag said, and leaves the record store, the tally, the cursor and the
processed counter untouched. -/
theorem c7_empty_page_completes (s : AppState) (hm : Bool)
    (hrun : s.isRunning = true) (hpc : s.processedCount < 1000) :
    (processNextPage s (.success [] hm)).2 = true ∧
    (processNextPage s (.success [] hm)).1.charityData = s.charityData ∧
    (processNextPage s (.success [] hm)).1.states = s.states ∧
    (processNextPage s (.success [] hm)).1.currentPage = s.currentPage ∧
    (processNextPage s (.success [] hm)).1.processedCount = s.processedCount ∧
    (processNextPage s (.success [] hm)).1.hasMorePages = false ∧
    (processNextPage s (.success [] hm)).1.isRunning = false := by
  rw [processNextPage_empty s hm hrun hpc]
  exact ⟨rfl, rfl, rfl, rfl, rfl, rfl, rfl⟩

theorem c7_empty_page_completes_witness :
    (processNextPage (startScraping initState) (.success [] true)).1.hasMorePages = false ∧
    (processNextPage (startScraping initState) (.success [] true)).1.isRunning = false ∧
    (processNextPage (startScraping initState) (.success [] true)).1.charityData =
      (startScraping initState).charityData :=
  ⟨(c7_empty_page_completes (startScraping initState) true rfl (by decide)).2.2.2.2.2.1,
   (c7_empty_page_completes (startScraping initState) true rfl (by decide)).2.2.2.2.2.2,
   (c7_empty_page_completes (startScraping initState) true rfl (by decide)).2.1⟩

/-- C8: after reset from any state, the record store is empty, the tally is
the empty map, the cursor is 1, the counter is 0, the controller is idle
(not running, `hasMore` true) and the snapshot entry is gone. -/
theorem c8_reset_clears (s : AppState) :
    (resetScraper s).charityData = [] ∧
    (resetScraper s).states = [] ∧
    (resetScraper s).currentPage = 1 ∧
    (resetScraper s).processedCount = 0 ∧
    (resetScraper s).isRunning = false ∧
    (resetScraper s).hasMorePages = true ∧
    (resetScraper s).localSaved = none :=
  ⟨rfl, rfl, rfl, rfl, rfl, rfl, rfl⟩

/-- C9: a successful page that carries the counter past the limit is still
merged whole — every record appended to the store and counted in the tally,
the cursor advanced — while only the counter is clamped to 1000; the store
length can therefore exceed the batch limit. -/
theorem c9_store_exceeds_limit (s : AppState) (cs : List Charity) (hm : Bool)
    (hrun : s.isRunning = true) (hpc : s.processedCount < 1000)
    (hover : 1000 < s.processedCount + cs.length) :
    (processNextPage s (.success cs hm)).1.charityData = s.charityData ++ cs ∧
    (processNextPage s (.success cs hm)).1.charityData.length =
      s.charityData.length + cs.length ∧
    (processNextPage s (.success cs hm)).1.states = mergeTally s.states cs ∧
    (processNextPage s (.success cs hm)).1.processedCount = 1000 ∧
    (processNextPage s (.success cs hm)).1.currentPage = s.currentPage + 1 := by
  rw [processNextPage_batch s cs hm hrun hpc (by omega)]
  refine ⟨rfl, ?_, rfl, rfl, rfl⟩
  show (s.charityData ++ cs).length = s.charityData.length + cs.length
  simp

theorem c9_store_exceeds_limit_witness :
    (processNextPage (startScraping initState)
        (.success (List.replicate 1001 sampleCharity) true)).1.charityData.length =
      (startScraping initState).charityData.length +
        (List.replicate 1001 sampleCharity).length ∧
    (processNextPage (startScraping initState)
        (.success (List.replicate 1001 sampleCharity) true)).1.processedCount = 1000 ∧
    1000 < (startScraping initState).charityData.length +
      (List.replicate 1001 sampleCharity).length :=
  ⟨(c9_store_exceeds_limit (startScraping initState)
      (List.replicate 1001 sampleCharity) true rfl (by decide) (by decide)).2.1,
   (c9_store_exceeds_limit (startScraping initState)
      (List.replicate 1001 sampleCharity) true rfl (by decide) (by decide)).2.2.2.1,
   by decide⟩

/-- C10 counterexample: an address with no code-plus-ZIP match containing
`"West Virginia"` on which region derivation returns `"KS"` (the earlier
`Kansas` entry also matches), not `"VA"`, refuting the claim as stated. -/
theorem c10_counterexample :
    zipScan ("100 Kansas St, West Virginia").data = none ∧
    hasSubStr "West Virginia" "100 Kansas St, West Virginia" = true ∧
    extractState "100 Kansas St, West Virginia" = "KS" ∧
    ("KS" : String) ≠ "VA" :=
  ⟨by decide, by decide, by decide, by decide⟩

/-- C10 (amended): for every address with no code-plus-ZIP match that
contains `"West Virginia"`, region derivation never returns `"WV"` — the
`West Virginia` entry is unreachable because `"Virginia"` precedes it in the
table and matches by containment — and it returns `"VA"` exactly when no
earlier table entry also occurs in the address, otherwise that earlier
entry's code. -/
theorem c10_west_virginia_unreachable (addr : String)
    (hzip : zipScan addr.data = none)
    (hwv : hasSubStr "West Virginia" addr = true) :
    extractState addr ≠ "WV" ∧
    (nameScan statesPre addr = none → extractState addr = "VA") ∧
    (∀ c : String, nameScan statesPre addr = some c → extractState addr = c) := by
  have hv : hasSubStr "Virginia" addr = true := hasSubStr_trans (by decide) hwv
  have hne : addr ≠ "" := ne_empty_of_hasSubStr (by decide) hwv
  have hscan := nameScan_virginia addr hv
  have hext : extractState addr = (nameScan statesTable addr).getD "Unknown" := by
    unfold extractState
    rw [if_neg hne, hzip]
    cases nameScan statesTable addr <;> simp
  refine ⟨?_, ?_, ?_⟩
  · cases hpre : nameScan statesPre addr with
    | some c =>
      rw [hext, hscan, hpre]
      intro hWV
      have hmem := nameScan_mem statesPre addr c hpre
      have hall : ∀ x ∈ statesPre.map Prod.snd, x ≠ "WV" := by decide
      exact hall c hmem (by simpa using hWV)
    | none =>
      rw [hext, hscan, hpre]
      decide
  · intro hpre
    rw [hext, hscan, hpre]
    rfl
  · intro c hpre
    rw [hext, hscan, hpre]
    rfl

theorem c10_west_virginia_unreachable_witness :
    extractState "10 Elm Road, West Virginia" ≠ "WV" ∧
    extractState "10 Elm Road, West Virginia" = "VA" :=
  ⟨(c10_west_virginia_unreachable "10 Elm Road, West Virginia"
      (by decide) (by decide)).1,
   (c10_west_virginia_unreachable "10 Elm Road, West Virginia"
      (by decide) (by decide)).2.1 (by decide)⟩

/-- C1: over every sequence of controller operations the processed counter
never exceeds the batch limit of 1000, and on the fetch that makes it reach
1000 the counter is clamped to exactly 1000 while the controller stops
running (the Paused halt) with `hasMorePages` left exactly as it was. -/
theorem c1_batch_ceiling :
    (∀ s : AppState, Reachable s → s.processedCount ≤ 1000) ∧
    (∀ (s : AppState) (cs : List Charity) (hm : Bool),
      s.isRunning = true → s.processedCount < 1000 →
      1000 ≤ s.processedCount + cs.length →
      (processNextPage s (.success cs hm)).1.processedCount = 1000 ∧
      (processNextPage s (.success cs hm)).1.isRunning = false ∧
      (processNextPage s (.success cs hm)).1.hasMorePages = s.hasMorePages) := by
  constructor
  · intro s hs
    exact (reachable_inv hs).pcLe
  · intro s cs hm hrun hpc hlim
    rw [processNextPage_batch s cs hm hrun hpc hlim]
    exact ⟨rfl, rfl, rfl⟩

theorem c1_batch_ceiling_witness :
    initState.processedCount ≤ 1000 ∧
    ((processNextPage { initState with isRunning := true, processedCount := 999 }
        (.success [sampleCharity] true)).1.processedCount = 1000 ∧
     (processNextPage { initState with isRunning := true, processedCount := 999 }
        (.success [sampleCharity] true)).1.isRunning = false ∧
     (processNextPage { initState with isRunning := true, processedCount := 999 }
        (.success [sampleCharity] true)).1.hasMorePages =
       ({ initState with isRunning := true, processedCount := 999 } : AppState).hasMorePages) :=
  ⟨c1_batch_ceiling.1 initState Reachable.init,
   c1_batch_ceiling.2 { initState with isRunning := true, processedCount := 999 }
     [sampleCharity] true rfl (by decide) (by decide)⟩

/-- C3: a failing fetch logs the error and halts the loop with the store,
tally, cursor and counter unchanged (the Failed halt, no data loss); from
any reachable such state a new start is accepted, turns the controller back
to running with the same cursor and data, and the next iteration really
fetches again. -/
theorem c3_failure_resumable (s : AppState) (msg : String) (hreach : Reachable s)
    (hrun : s.isRunning = true) (hpc : s.processedCount < 1000) :
    (processNextPage s (.failure msg)).2 = true ∧
    (processNextPage s (.failure msg)).1.charityData = s.charityData ∧
    (processNextPage s (.failure msg)).1.states = s.states ∧
    (processNextPage s (.failure msg)).1.currentPage = s.currentPage ∧
    (processNextPage s (.failure msg)).1.processedCount = s.processedCount ∧
    (processNextPage s (.failure msg)).1.isRunning = false ∧
    (processNextPage s (.failure msg)).1.log = s.log ++
      ["Processing page " ++ toString s.currentPage ++ "...",
       "Error processing page " ++ toString s.currentPage ++ ": " ++ msg] ∧
    (startScraping (processNextPage s (.failure msg)).1).isRunning = true ∧
    (startScraping (processNextPage s (.failure msg)).1).currentPage = s.currentPage ∧
    (startScraping (processNextPage s (.failure msg)).1).charityData = s.charityData ∧
    (∀ f : FetchResult,
      (processNextPage (startScraping (processNextPage s (.failure msg)).1) f).2 = true) := by
  have heq := processNextPage_failure s msg hrun hpc
  have hresume := (reachable_inv hreach).resumable hrun
  rw [heq]
  have hstart : ¬(((⟨false, s.currentPage, s.processedCount,
      s.log ++ ["Processing page " ++ toString s.currentPage ++ "...",
        "Error processing page " ++ toString s.currentPage ++ ": " ++ msg],
      s.states, s.charityData, s.isExporting, s.hasMorePages, false,
      s.sourceUrl, s.localSaved⟩ : AppState)).hasMorePages = false ∧
      1 < s.currentPage) := by
    rintro ⟨h1, h2⟩
    rcases hresume with hmore | hpage
    · rw [show (⟨false, s.currentPage, s.processedCount, _, s.states, s.charityData,
        s.isExporting, s.hasMorePages, false, s.sourceUrl, s.localSaved⟩ :
          AppState).hasMorePages = s.hasMorePages from rfl] at h1
      rw [hmore] at h1
      cases h1
    · omega
  refine ⟨rfl, rfl, rfl, rfl, rfl, rfl, by simp, ?_, ?_, ?_, ?_⟩
  · rw [startScraping, if_neg hstart]
  · rw [startScraping, if_neg hstart]
  · rw [startScraping, if_neg hstart]
  · intro f
    refine processNextPage_snd_true _ f ?_ ?_
    · rw [startScraping, if_neg hstart]
    · rw [startScraping, if_neg hstart]
      exact hpc

theorem c3_failure_resumable_witness :
    (processNextPage (startScraping initState) (.failure "network timeout")).1.isRunning
        = false ∧
    (processNextPage (startScraping initState) (.failure "network timeout")).1.charityData
        = (startScraping initState).charityData ∧
    (startScraping
      (processNextPage (startScraping initState) (.failure "network timeout")).1).isRunning
        = true :=
  ⟨(c3_failure_resumable (startScraping initState) "network timeout"
      (Reachable.start Reachable.init) rfl (by decide)).2.2.2.2.2.1,
   (c3_failure_resumable (startScraping initState) "network timeout"
      (Reachable.start Reachable.init) rfl (by decide)).2.1,
   (c3_failure_resumable (startScraping initState) "network timeout"
      (Reachable.start Reachable.init) rfl (by decide)).2.2.2.2.2.2.2.1⟩

/-- C6: in every reachable state the tally counts sum to the store length
and each region's count equals the number of stored records with that
region; on restore the tally is recomputed from the restored records, never
loaded from persistence. -/
theorem c6_tally_consistent (s : AppState) (hreach : Reachable s) :
    ((s.states.map Prod.snd).sum = s.charityData.length) ∧
    (∀ k : String, getCount s.states k =
      s.charityData.countP (fun c => c.state == k)) ∧
    (∀ l : List Charity, s.localSaved = some l →
      (restoreFromStorage s).states = mergeTally [] l) := by
  have hinv := reachable_inv hreach
  refine ⟨hinv.tallySum, ?_, ?_⟩
  · intro k
    rw [hinv.tallyCount k]
    refine List.countP_congr ?_
    intro c hc
    have hne := hinv.storeValid c hc
    simp [normKey, hne]
  · intro l hl
    unfold restoreFromStorage
    rw [hl]

theorem c6_tally_consistent_witness :
    ((initState.states.map Prod.snd).sum = initState.charityData.length) ∧
    getCount initState.states "NY" =
      initState.charityData.countP (fun c => c.state == "NY") :=
  ⟨(c6_tally_consistent initState Reachable.init).1,
   (c6_tally_consistent initState Reachable.init).2.1 "NY"⟩

/-- A page of exactly 1000 records, driving the counter to the limit. -/
def bigPage : List Charity := List.replicate 1000 sampleCharity

/-- The state reached after starting from scratch and ingesting one page of
1000 records: halted at the batch limit with `hasMorePages` still true. -/
def stuckState : AppState :=
  (processNextPage (startScraping initState) (.success bigPage true)).1

/-- C2: the state paused at the batch limit with more pages available is
reachable, and a subsequent start does flip the controller back to running —
but every following loop iteration returns at the entry guard
(`processedCount` is still 1000 and is never reset), so no further page is
ever fetched: the promised resumption of the next batch never happens. -/
theorem c2_continue_never_fetches :
    Reachable stuckState ∧
    stuckState.isRunning = false ∧
    stuckState.processedCount = 1000 ∧
    stuckState.hasMorePages = true ∧
    (startScraping stuckState).isRunning = true ∧
    (∀ f : FetchResult,
      processNextPage (startScraping stuckState) f =
        ({ startScraping stuckState with isProcessing := false }, false)) := by
  have hvalid : validFetch (.success bigPage true) := by
    intro c hc
    rw [List.eq_of_mem_replicate hc]
    decide
  have hpc : (startScraping initState).processedCount < 1000 := by decide
  have hlim : 1000 ≤ (startScraping initState).processedCount + bigPage.length := by
    show 1000 ≤ 0 + (List.replicate 1000 sampleCharity).length
    simp
  have heq := processNextPage_batch (startScraping initState) bigPage true rfl hpc hlim
  have hstuck := congrArg Prod.fst heq
  have hhm : stuckState.hasMorePages = true := by
    unfold stuckState
    rw [hstuck]
    decide
  have hpc1000 : stuckState.processedCount = 1000 := by
    unfold stuckState
    rw [hstuck]
  have hstart : ¬(stuckState.hasMorePages = false ∧ 1 < stuckState.currentPage) := by
    rintro ⟨h1, -⟩
    rw [hhm] at h1
    cases h1
  have hstartpc : (startScraping stuckState).processedCount = 1000 := by
    rw [startScraping, if_neg hstart]
    exact hpc1000
  refine ⟨?_, ?_, hpc1000, hhm, ?_, ?_⟩
  · exact Reachable.step (.success bigPage true) (Reachable.start Reachable.init) hvalid
  · unfold stuckState
    rw [hstuck]
  · rw [startScraping, if_neg hstart]
  · intro f
    exact processNextPage_guard (startScraping stuckState) f (Or.inr (by rw [hstartpc]))

/-- Records with embedded quotes, commas and a newline, exercising the
export escaping. -/
def quotedCharity : Charity :=
  { name := "Acme \"Best\", Inc"
    address := "1 \"A\" St,\nTown"
    website := "https://a.example"
    email := none
    state := "NY" }

/-- A plain record sorting ahead of `quotedCharity`. -/
def plainCharity : Charity :=
  { name := "Aardvark Aid"
    address := "2 B St"
    website := ""
    email := some "x@y.example"
    state := "Unknown" }

/-- C5: for every nonempty record set — including records whose name or
address embed double quotes and commas — parsing the exported text with the
standard quote-aware reader yields exactly the original field values (in
export order, a permutation of the store), and exporting twice with no
intervening mutation produces byte-identical output because the export
leaves the store untouched.  The region fields produced by ingestion never
contain a quote (`extractState_no_quote`), which the hypothesis records. -/
theorem c5_export_round_trip (recs : List Charity) (hne : recs ≠ [])
    (hq : ∀ r ∈ recs, '"' ∉ r.state.data) :
    exportToCSV recs = some (String.mk (exportCsvChars recs)) ∧
    parseCSV (String.mk (exportCsvChars recs)) =
      ["Name", "Address", "Website", "Email", "State"] ::
        (sortByName recs).map
          (fun r => [r.name, r.address, r.website, r.email.getD "", r.state]) ∧
    List.Perm (sortByName recs) recs ∧
    (exportOp { initState with charityData := recs }).2.charityData = recs ∧
    (exportOp ((exportOp { initState with charityData := recs }).2)).1 =
      (exportOp { initState with charityData := recs }).1 := by
  have hstore : ({ initState with charityData := recs } : AppState).charityData
      = recs := rfl
  have hop1 : (exportOp { initState with charityData := recs }).2.charityData
      = recs := by
    unfold exportOp
    rw [if_neg (hstore ▸ hne)]
  refine ⟨by rw [exportToCSV, if_neg hne], parseCSV_export recs hq,
    sortByName_perm recs, hop1, ?_⟩
  have hfst : ∀ t : AppState, t.charityData = recs →
      (exportOp t).1 = some (String.mk (exportCsvChars recs)) := by
    intro t ht
    unfold exportOp
    rw [if_neg (ht ▸ hne)]
    rw [ht]
  rw [hfst _ hop1, hfst _ hstore]

theorem c5_export_round_trip_witness :
    parseCSV (String.mk (exportCsvChars [quotedCharity, plainCharity])) =
      ["Name", "Address", "Website", "Email", "State"] ::
        (sortByName [quotedCharity, plainCharity]).map
          (fun r => [r.name, r.address, r.website, r.email.getD "", r.state]) ∧
    (exportOp ((exportOp { initState with
        charityData := [quotedCharity, plainCharity] }).2)).1 =
      (exportOp { initState with charityData := [quotedCharity, plainCharity] }).1 :=
  ⟨(c5_export_round_trip [quotedCharity, plainCharity] (by decide) (by decide)).2.1,
   (c5_export_round_trip [quotedCharity, plainCharity] (by decide) (by decide)).2.2.2.2⟩

end Scraper
